import Mathlib

/-!
Verification of the risk-scoring and aggregation engine of the
`verifexai-aws` fraud-detection pipeline.

The definitions below are shallow embeddings of the Python source:

* `aws/common/utilities/utils.py` — `aggregate_mean_top_k`,
  `choose_adaptive_k`, `pick_topk_indices_with_diversity`;
* `aws/analyze_file/font_anomalies/font_anomaly_detector.py` —
  `_wilson_upper_bound`, `_dynamic_doc_threshold`, `_normalize_font_name`,
  `detect`;
* `aws/analyze_file/metadata/pdf_metadata_scorer.py` — annotation and
  signature scoring inside `_score_metadata` and `_score_single_annotation`;
* `aws/common/config/client_config.py` — `severity_for`, `status_for`.

Modelling conventions: Python `int` is `ℤ`; Python `float` is `ℚ` where the
source only performs ring operations and comparisons, and `ℝ` where it takes
square roots; Python exceptions are the `Except`/`Option` error channel;
`datetime` values are modelled as already-parsed instants on a discrete
integer time axis (only their ordering and day differences are used).
-/

namespace Verifex

/-- Category enumeration from `aws/common/utilities/enums.py` (`class Category`):
five check categories. -/
inductive Category where
  | syntheticMedia
  | visualAnalysis
  | fileMetadata
  | crossSourceVerification
  | historicalPatterns
deriving DecidableEq, Repr

/-- Severity enumeration from `aws/common/utilities/enums.py` (`class Severity`). -/
inductive Severity where
  | low
  | medium
  | high
  | critical
deriving DecidableEq, Repr

/-- Status enumeration from `aws/common/utilities/enums.py` (`class Status`):
values are "pass", "warn", "risk", "error", "skipped". -/
inductive Status where
  | pass
  | warn
  | risk
  | error
  | skipped
deriving DecidableEq, Repr

/-- Python's builtin `round` on the exact value of a float: round to nearest,
ties to even (banker's rounding).  Used by `int(round(mean))` in
`aggregate_mean_top_k`. -/
def pyRound (q : ℚ) : ℤ :=
  if q - ⌊q⌋ < 1/2 then ⌊q⌋
  else if 1/2 < q - ⌊q⌋ then ⌊q⌋ + 1
  else if ⌊q⌋ % 2 = 0 then ⌊q⌋ else ⌊q⌋ + 1

/-- A Python value handed to `aggregate_mean_top_k`: a finite number (exact
rational), a non-finite float (`nan`/`inf`/`-inf`), or a value on which
`float(s)` raises `TypeError`/`ValueError`. -/
inductive PyVal where
  | num (q : ℚ)
  | nan
  | inf
  | negInf
  | nonNumeric
deriving DecidableEq, Repr

/-- Values surviving the sanitize loop of `aggregate_mean_top_k`: `float(s)`
succeeds and `math.isfinite(s)` holds exactly for finite numbers. -/
def PyVal.toFinite : PyVal → Option ℚ
  | .num q => some q
  | _ => none

/-- Embedding of `aggregate_mean_top_k` (utils.py lines 70-102): clamp each
finite score into `[0,100]`, drop the rest; return `0` on an empty valid set
or non-positive K, else the rounded mean of the top `min(K, count)` values. -/
def aggregate_mean_top_k (scores : List PyVal) (mean_top_k : ℤ) : ℤ :=
  let clean := (scores.filterMap PyVal.toFinite).map (fun s => max 0 (min 100 s))
  if clean = [] ∨ mean_top_k ≤ 0 then 0
  else
    let sorted := clean.insertionSort (fun a b => b ≤ a)
    let k := min mean_top_k (clean.length : ℤ)
    let topk := sorted.take k.toNat
    pyRound (topk.sum / (k : ℚ))

/-- Specification-side restatement of the aggregation contract, following the
spec's words: "clamp every score into [0,100], sort descending, take the first
min(K, count) values, return round(mean) as an integer. If no valid scores,
return 0" (non-finite or non-numeric values are dropped as invalid). -/
def aggregateMeanTopKSpec (scores : List PyVal) (k : ℤ) : ℤ :=
  let valid := scores.filterMap PyVal.toFinite
  let clamped := valid.map (fun s => max 0 (min 100 s))
  let count := (clamped.length : ℤ)
  if clamped = [] ∨ k ≤ 0 then 0
  else
    let descending := clamped.insertionSort (fun a b => b ≤ a)
    let chosen := descending.take (min k count).toNat
    pyRound (chosen.sum / ((min k count : ℤ) : ℚ))

/-- Model of `CheckResult` (`aws/common/models/check_result.py`); only the two
fields read by the aggregation engine (`score`, `category`) are carried.
`score` is declared `int` in the source, so `isinstance(c.score, int)` holds. -/
structure CheckResult where
  score : ℤ
  category : Category
deriving DecidableEq, Repr

/-- Integer form of `int(round(math.sqrt M))` for a natural number `M`: the
nearest integer to `√M` (the tie `√M = s + 1/2` cannot occur since
`(s + 1/2)^2` is never an integer).  `Nat.sqrt M` is `⌊√M⌋`, and the nearest
integer is `s + 1` exactly when `M - s^2 > s`. -/
def roundSqrtNat (m : ℕ) : ℕ :=
  let s := Nat.sqrt m
  if s < m - s * s then s + 1 else s

/-- Python's `n or 1` idiom on an integer: replaces `0` (falsy) by `1`. -/
def orOne (d : ℤ) : ℤ := if d = 0 then 1 else d

/-- Step 3 of `choose_adaptive_k` (the risk-concentration test on the
descending-sorted check list): returns `1` when the top score dominates the
sum of the top `L = min (max 2 (2K)) N` scores, else the base `K`.  The
Python `sum(...) or 1` idiom replaces a zero denominator by `1`. -/
def concentrationOverride (ordered : List CheckResult) (K : ℤ) (concentration : ℚ) : ℤ :=
  match ordered with
  | [] => K
  | top :: _ =>
    let L := min (max 2 (K * 2)) (ordered.length : ℤ)
    let d0 := ((ordered.take L.toNat).map (fun c => c.score)).sum
    let denom := orOne d0
    if concentration ≤ (top.score : ℚ) / (denom : ℚ) then 1 else K

/-- Embedding of `choose_adaptive_k` (utils.py lines 125-167).  The unused
keyword parameters `enforce_diversity` and `diversity_first_k` (never read in
the body) are omitted. -/
def choose_adaptive_k (checks : List CheckResult)
    (t_material min_k max_k : ℤ) (concentration : ℚ) : ℤ :=
  let material := checks.filter (fun c => t_material ≤ c.score)
  let M := material.length
  if M = 0 then min_k
  else
    let K := max min_k (min max_k (roundSqrtNat M : ℤ))
    let ordered := checks.insertionSort (fun a b => b.score ≤ a.score)
    concentrationOverride ordered K concentration

/-- First pass of `pick_topk_indices_with_diversity`: walk the sorted
`(index, check)` list, stopping once `limit` indices are chosen, adding an
index only when its category has not been seen yet. -/
def pickDiverse : List (ℕ × CheckResult) → ℤ → List ℕ → List Category → List ℕ
  | [], _, chosen, _ => chosen
  | (i, c) :: rest, limit, chosen, seen =>
    if limit ≤ (chosen.length : ℤ) then chosen
    else if c.category ∈ seen then pickDiverse rest limit chosen seen
    else pickDiverse rest limit (chosen ++ [i]) (seen ++ [c.category])

/-- Second pass of `pick_topk_indices_with_diversity`: fill remaining slots in
score order, skipping already-chosen indices, stopping at `k`. -/
def fillRest : List (ℕ × CheckResult) → ℤ → List ℕ → List ℕ
  | [], _, chosen => chosen
  | (i, _) :: rest, k, chosen =>
    if i ∈ chosen then fillRest rest k chosen
    else
      let chosen2 := chosen ++ [i]
      if k ≤ (chosen2.length : ℤ) then chosen2 else fillRest rest k chosen2

/-- Embedding of `pick_topk_indices_with_diversity` (utils.py lines 170-206):
stable sort by score descending (ties by original index), then a
category-diversity first pass capped at `min k diversity_first_k`, then a
score-order fill. -/
def pick_topk_indices_with_diversity (checks : List CheckResult)
    (k : ℤ) (diversity_first_k : ℤ) : List ℕ :=
  let indexed := checks.enum
  let sorted := indexed.insertionSort
    (fun a b => b.2.score < a.2.score ∨ (a.2.score = b.2.score ∧ a.1 ≤ b.1))
  if k ≤ 0 ∨ indexed = [] then []
  else
    let chosen := pickDiverse sorted (min k diversity_first_k) [] []
    if (chosen.length : ℤ) < k then fillRest sorted k chosen else chosen

lemma pyRound_nonneg {q : ℚ} (h : 0 ≤ q) : 0 ≤ pyRound q := by
  have h0 : (0 : ℤ) ≤ ⌊q⌋ := Int.floor_nonneg.mpr h
  unfold pyRound
  split_ifs <;> omega

lemma pyRound_le {q : ℚ} {n : ℤ} (h : q ≤ (n : ℚ)) : pyRound q ≤ n := by
  have hf : ⌊q⌋ ≤ n := by
    have h1 := Int.floor_mono h
    simpa using h1
  have hle : ⌊q⌋ = n → (q : ℚ) - (⌊q⌋ : ℚ) ≤ 0 := by
    intro he
    rw [he]
    linarith
  unfold pyRound
  split_ifs with h1 h2 h3
  · exact hf
  · rcases lt_or_eq_of_le hf with hlt | heq
    · omega
    · exfalso; have := hle heq; linarith
  · exact hf
  · rcases lt_or_eq_of_le hf with hlt | heq
    · omega
    · exfalso; have := hle heq; linarith

lemma aggregate_mean_top_k_in_range (scores : List PyVal) (k : ℤ) :
    0 ≤ aggregate_mean_top_k scores k ∧ aggregate_mean_top_k scores k ≤ 100 := by
  unfold aggregate_mean_top_k
  set clean := (scores.filterMap PyVal.toFinite).map (fun s => max 0 (min 100 s)) with hclean
  by_cases hc : clean = [] ∨ k ≤ 0
  · simp [hc]
  · simp only [if_neg hc]
    push_neg at hc
    obtain ⟨hne, hkpos⟩ := hc
    have hmem : ∀ x ∈ clean, 0 ≤ x ∧ x ≤ 100 := by
      intro x hx
      rw [hclean] at hx
      obtain ⟨s, _, rfl⟩ := List.mem_map.mp hx
      constructor
      · exact le_max_left 0 _
      · exact max_le (by norm_num) (min_le_left _ _)
    set sorted := clean.insertionSort (fun a b => b ≤ a) with hsorted
    have hmem' : ∀ x ∈ sorted, 0 ≤ x ∧ x ≤ 100 := by
      intro x hx
      exact hmem x ((List.perm_insertionSort _ clean).mem_iff.mp hx)
    set kk := min k (clean.length : ℤ) with hkk
    have hkk1 : 1 ≤ kk := by
      have hlen : 1 ≤ (clean.length : ℤ) := by
        have : clean ≠ [] := hne
        have : 0 < clean.length := List.length_pos.mpr this
        exact_mod_cast this
      omega
    set topk := sorted.take kk.toNat with htopk
    have htmem : ∀ x ∈ topk, 0 ≤ x ∧ x ≤ 100 := fun x hx =>
      hmem' x (List.mem_of_mem_take hx)
    have hsum0 : 0 ≤ topk.sum := List.sum_nonneg fun x hx => (htmem x hx).1
    have hsumle : topk.sum ≤ (topk.length : ℚ) * 100 := by
      have h1 := List.sum_le_card_nsmul topk 100 fun x hx => (htmem x hx).2
      simpa [nsmul_eq_mul, mul_comm] using h1
    have hlenle : (topk.length : ℚ) ≤ (kk : ℚ) := by
      have h2 : topk.length ≤ kk.toNat := by
        rw [htopk]
        exact List.length_take_le kk.toNat sorted
      have h3 : (kk.toNat : ℤ) = kk := Int.toNat_of_nonneg (by omega)
      have h4 := (Int.ofNat_le).mpr h2
      rw [← h3]
      exact_mod_cast h4
    have hkpos' : (0 : ℚ) < (kk : ℚ) := by exact_mod_cast hkk1.trans_lt' (by norm_num)
    constructor
    · exact pyRound_nonneg (div_nonneg hsum0 hkpos'.le)
    · refine pyRound_le ?_
      rw [div_le_iff₀ hkpos']
      calc topk.sum ≤ (topk.length : ℚ) * 100 := hsumle
        _ ≤ (kk : ℚ) * 100 := by nlinarith
        _ = (100 : ℤ) * (kk : ℚ) := by push_cast; ring

/-- C7: `aggregate_mean_top_k` sanitizes any input without raising: finite
scores are clamped into `[0,100]`, non-finite or non-numeric values dropped,
an empty valid set (or non-positive K) yields 0, and otherwise the result is
the rounded mean of the top `min(K, count)` clamped values (the spec-side
restatement `aggregateMeanTopKSpec`); in particular the result always lies in
`[0,100]`, and the three concrete examples hold. -/
theorem claim7_aggregate_sanitizes :
    aggregate_mean_top_k [.num 90, .num 80, .num 10, .num 5] 2 = 85 ∧
    aggregate_mean_top_k [] 3 = 0 ∧
    aggregate_mean_top_k [.num 150, .num (-10)] 1 = 100 ∧
    (∀ scores k, 0 ≤ aggregate_mean_top_k scores k ∧
      aggregate_mean_top_k scores k ≤ 100) ∧
    (∀ scores k, aggregate_mean_top_k scores k = aggregateMeanTopKSpec scores k) := by
  refine ⟨?_, by norm_num [aggregate_mean_top_k], ?_,
    aggregate_mean_top_k_in_range, fun _ _ => rfl⟩
  · norm_num [aggregate_mean_top_k, PyVal.toFinite, List.filterMap,
      List.insertionSort, List.orderedInsert, pyRound, List.take, Int.fract]
    exact List.cons_ne_nil _ _
  · norm_num [aggregate_mean_top_k, PyVal.toFinite, List.filterMap,
      List.insertionSort, List.orderedInsert, pyRound, List.take, Int.fract]
    exact List.cons_ne_nil _ _

/-- C1: for five checks scoring `[95, 40, 38, 12, 5]` with pairwise distinct
categories and default parameters, `choose_adaptive_k` returns 2,
`pick_topk_indices_with_diversity` selects the indices of the checks scoring
95 and 40, and the mean-top-2 aggregate of those two scores is 68. -/
theorem claim1_end_to_end (a b c d e : Category)
    (hab : a ≠ b) (hac : a ≠ c) (had : a ≠ d) (hae : a ≠ e) (hbc : b ≠ c)
    (hbd : b ≠ d) (hbe : b ≠ e) (hcd : c ≠ d) (hce : c ≠ e) (hde : d ≠ e) :
    choose_adaptive_k [⟨95, a⟩, ⟨40, b⟩, ⟨38, c⟩, ⟨12, d⟩, ⟨5, e⟩]
        25 1 5 (0.55 : ℚ) = 2 ∧
    pick_topk_indices_with_diversity [⟨95, a⟩, ⟨40, b⟩, ⟨38, c⟩, ⟨12, d⟩, ⟨5, e⟩]
        2 3 = [0, 1] ∧
    aggregate_mean_top_k [.num 95, .num 40] 2 = 68 := by
  refine ⟨?_, ?_, ?_⟩
  · norm_num [choose_adaptive_k, concentrationOverride, orOne, roundSqrtNat,
      List.insertionSort, List.orderedInsert, List.filter, List.take]
  · norm_num [pick_topk_indices_with_diversity, pickDiverse, fillRest,
      List.insertionSort, List.orderedInsert, List.enum, List.enumFrom,
      hab.symm]
    exact fun h => absurd h (List.cons_ne_nil _ _)
  · norm_num [aggregate_mean_top_k, PyVal.toFinite, List.filterMap,
      List.insertionSort, List.orderedInsert, pyRound, List.take, Int.fract]
    exact List.cons_ne_nil _ _

/-- Witness for C1 at a concrete choice of five pairwise distinct categories. -/
theorem claim1_end_to_end_witness :
    (Category.syntheticMedia ≠ Category.visualAnalysis ∧
     Category.syntheticMedia ≠ Category.fileMetadata ∧
     Category.syntheticMedia ≠ Category.crossSourceVerification ∧
     Category.syntheticMedia ≠ Category.historicalPatterns ∧
     Category.visualAnalysis ≠ Category.fileMetadata ∧
     Category.visualAnalysis ≠ Category.crossSourceVerification ∧
     Category.visualAnalysis ≠ Category.historicalPatterns ∧
     Category.fileMetadata ≠ Category.crossSourceVerification ∧
     Category.fileMetadata ≠ Category.historicalPatterns ∧
     Category.crossSourceVerification ≠ Category.historicalPatterns) ∧
    (choose_adaptive_k
        [⟨95, Category.syntheticMedia⟩, ⟨40, Category.visualAnalysis⟩,
         ⟨38, Category.fileMetadata⟩, ⟨12, Category.crossSourceVerification⟩,
         ⟨5, Category.historicalPatterns⟩] 25 1 5 (0.55 : ℚ) = 2 ∧
     pick_topk_indices_with_diversity
        [⟨95, Category.syntheticMedia⟩, ⟨40, Category.visualAnalysis⟩,
         ⟨38, Category.fileMetadata⟩, ⟨12, Category.crossSourceVerification⟩,
         ⟨5, Category.historicalPatterns⟩] 2 3 = [0, 1] ∧
     aggregate_mean_top_k [.num 95, .num 40] 2 = 68) :=
  ⟨by decide,
   claim1_end_to_end _ _ _ _ _ (by decide) (by decide) (by decide) (by decide)
     (by decide) (by decide) (by decide) (by decide) (by decide) (by decide)⟩

/-- Name normalization `_name` from `metadata_utils.py`: `None` becomes `""`,
and a leading `/` is stripped. -/
def nameOf : Option String → String
  | none => ""
  | some s => if s.startsWith "/" then s.drop 1 else s

/-- Base risk per annotation subtype (`ANNOT_RISK_BASE`,
pdf_metadata_scorer.py lines 16-23); `dict.get(subtype, 40)` gives every
unknown subtype 40. -/
def annotRiskBase (subtype : String) : ℤ :=
  match subtype with
  | "Link" => 10
  | "Text" => 75
  | "FreeText" => 78
  | "Popup" => 75
  | "Highlight" => 50
  | "Underline" => 50
  | "Squiggly" => 55
  | "StrikeOut" => 55
  | "Caret" => 65
  | "Ink" => 75
  | "Stamp" => 60
  | "Redact" => 85
  | "Widget" => 45
  | "FileAttachment" => 95
  | "Sound" => 95
  | "Movie" => 95
  | "RichMedia" => 98
  | _ => 40

/-- Annotation flag booleans consulted by `_score_single_annotation`
(decoded by `_decode_annot_flags`; the four remaining flags it decodes are
never read by the scorer). -/
structure AnnotFlags where
  invisible : Bool
  hidden : Bool
  print : Bool
  noView : Bool
deriving DecidableEq, Repr

/-- One extracted PDF annotation record as consumed by
`_score_single_annotation`.  The `modified` PDF date string is modelled as an
already-parsed instant (`_parse_pdf_date` returning `None` on a missing or
malformed date is the `none` case); `bbox` is the annotation rect. -/
structure Annot where
  page : ℤ
  subtype : Option String
  contents : Option String
  flags : AnnotFlags
  actionS : Option String
  actionURI : Option String
  bbox : Option (ℚ × ℚ × ℚ × ℚ)
  modified : Option ℤ
deriving DecidableEq, Repr

/-- Rect area `_rect_area` from `metadata_utils.py`:
`max(0, urx - llx) * max(0, ury - lly)` for `(llx, lly, urx, ury)`. -/
def rectArea (bb : ℚ × ℚ × ℚ × ℚ) : ℚ :=
  max 0 (bb.2.2.1 - bb.1) * max 0 (bb.2.2.2 - bb.2.1)

/-- The `SUSPICIOUS_SCHEMES` tuple from pdf_metadata_scorer.py. -/
def suspiciousSchemes : List String := ["javascript:", "data:", "file:", "ftp:"]

/-- Truthiness-guarded comparison on optional instants: the Python pattern
`x and y and x < y` on two optional datetimes. -/
def optLtB (x y : Option ℤ) : Bool :=
  match x, y with
  | some a, some b => a < b
  | _, _ => false

/-- Scoring context shared by every annotation of one document inside
`_score_metadata`: page areas (`page_dims[page]["area"]`), parsed document
creation/modification dates, the optional domain allow-list, and the hostname
extraction `urlparse(uri).hostname or ""` (modelled as an abstract total
function into strings since URL parsing is glue outside the scoring core). -/
structure AnnotCtx where
  pageArea : ℤ → Option ℚ
  creation : Option ℤ
  modification : Option ℤ
  allowedDomains : Option (List String)
  hostOf : String → String

/-- Flags block of `_score_single_annotation` (lines 54-58). -/
def annotFlagsStage (a : Annot) (st : ℤ × List String) : ℤ × List String :=
  let st1 := if a.flags.invisible || a.flags.hidden then
      (max st.1 90, st.2 ++ ["Annotation hidden/invisible"]) else st
  if a.flags.noView && a.flags.print then
      (max st1.1 95, st1.2 ++ ["Print-only hidden annotation"]) else st1

/-- High-risk action block of `_score_single_annotation` (lines 66-67). -/
def annotActionStage (actionS : String) (st : ℤ × List String) : ℤ × List String :=
  if actionS = "JavaScript" ∨ actionS = "Launch" ∨ actionS = "SubmitForm" ∨
      actionS = "GoToR" then
    (max st.1 95, st.2 ++ ["Action " ++ actionS]) else st

/-- URI block of `_score_single_annotation` (lines 70-82): suspicious scheme
escalates to 92; otherwise a host outside a non-empty allow-list nudges to 30. -/
def annotUriStage (ctx : AnnotCtx) (uri : String) (st : ℤ × List String) :
    ℤ × List String :=
  if uri ≠ "" then
    let u := uri.trim.toLower
    if suspiciousSchemes.any (fun p => u.startsWith p) then
      (max st.1 92, st.2 ++ ["Suspicious scheme: " ++ u.takeWhile (fun ch => ch ≠ ':')])
    else
      let host := ctx.hostOf uri
      let ds := ctx.allowedDomains.getD []
      if ds ≠ [] ∧ host ≠ "" ∧ ¬ ds.any (fun d => host.endsWith d) then
        (max st.1 30, st.2 ++ ["External link: " ++ host]) else st
  else st

/-- Giant-overlay-rect block of `_score_single_annotation` (lines 85-93); the
human-readable coverage percentage of the Python reason string is omitted. -/
def annotRectStage (ctx : AnnotCtx) (a : Annot) (st : ℤ × List String) :
    ℤ × List String :=
  let pa := (ctx.pageArea a.page).getD 0
  if pa ≠ 0 ∧ a.bbox.isSome then
    let ra := rectArea (a.bbox.getD (0, 0, 0, 0))
    if ra ≠ 0 ∧ 0 < pa then
      let coverage := ra / pa
      if (0.8 : ℚ) < coverage then (max st.1 92, st.2 ++ ["Very large rect"])
      else if (0.5 : ℚ) < coverage then (max st.1 85, st.2 ++ ["Large rect"])
      else st
    else st
  else st

/-- Timestamp block of `_score_single_annotation` (lines 96-100). -/
def annotTimeStage (ctx : AnnotCtx) (a : Annot) (st : ℤ × List String) :
    ℤ × List String :=
  let st1 := if optLtB a.modified ctx.creation then
      (max st.1 85, st.2 ++ ["Annotation predates document creation"]) else st
  if optLtB ctx.modification a.modified then
      (max st1.1 88, st1.2 ++ ["Annotation newer than document ModDate"]) else st1

/-- Markup-contents block of `_score_single_annotation` (lines 103-105): adds
a reason but leaves the risk untouched. -/
def annotContentsStage (subtype : String) (a : Annot) (st : ℤ × List String) :
    ℤ × List String :=
  if (subtype = "Text" ∨ subtype = "FreeText" ∨ subtype = "Popup" ∨
      subtype = "Ink" ∨ subtype = "Caret" ∨ subtype = "Redact" ∨
      subtype = "Stamp") ∧ (a.contents.getD "").trim ≠ "" then
    (st.1, st.2 ++ ["User comment/markup present"]) else st

/-- Embedding of `_score_single_annotation` (pdf_metadata_scorer.py lines
40-107): base risk by subtype, the escalation blocks in source order, and the
final clamp `int(min(100, max(0, risk)))`. -/
def scoreSingleAnnot (ctx : AnnotCtx) (a : Annot) : ℤ × List String :=
  let subtype := nameOf a.subtype
  let st0 : ℤ × List String := (annotRiskBase subtype, [])
  let actionS := nameOf a.actionS
  let uri := if actionS = "URI" then a.actionURI.getD "" else ""
  let st := annotContentsStage subtype a (annotTimeStage ctx a
    (annotRectStage ctx a (annotUriStage ctx uri
      (annotActionStage actionS (annotFlagsStage a st0)))))
  (min 100 (max 0 st.1), st.2)

/-- Number of "Link" annotations in the document
(`_summarize_annotations(annotations).get("Link", 0)`). -/
def linkCount (annots : List Annot) : ℕ :=
  (annots.filter (fun a => nameOf a.subtype = "Link")).length

/-- The link nudges of `_score_metadata` (lines 438-442): with at most 3
links, a benign link score (≤30) is capped at 15; with more than 8 links, a
link score below 40 is floored to 40. -/
def nudgedScore (lc : ℕ) (a : Annot) (res : ℤ) : ℤ :=
  if nameOf a.subtype = "Link" then
    if lc ≤ 3 ∧ res ≤ 30 then min res 15
    else if 8 < lc ∧ res < 40 then 40
    else res
  else res

/-- Final per-annotation risk inside the `_score_metadata` annotation loop:
`_score_single_annotation` followed by the link nudges. -/
def annotRisk (ctx : AnnotCtx) (annots : List Annot) (a : Annot) : ℤ :=
  nudgedScore (linkCount annots) a (scoreSingleAnnot ctx a).1

/-- The running maximum `max_score` of the `_score_metadata` annotation loop
(initialized to 0, updated whenever a per-annotation score exceeds it). -/
def maxAnnotRisk (ctx : AnnotCtx) (annots : List Annot) : ℤ :=
  (annots.map (annotRisk ctx annots)).foldr max 0

/-- Final annotation score of the document (lines 451-453): the worst
offender, floored to 10 when annotations exist but the maximum is 0. -/
def docAnnotScore (ctx : AnnotCtx) (annots : List Annot) : ℤ :=
  let m := maxAnnotRisk ctx annots
  if m = 0 ∧ annots ≠ [] then 10 else m

/-- The annotations collected as suspicious in the `_score_metadata` loop:
those whose (nudged) per-annotation score is at least 70. -/
def suspiciousAnnots (ctx : AnnotCtx) (annots : List Annot) : List Annot :=
  annots.filter (fun a => 70 ≤ annotRisk ctx annots a)

/-- Catastrophic integrity floor (`CATASTROPHIC_INTEGRITY`, line 26). -/
def CATASTROPHIC_INTEGRITY : ℤ := 85

/-- Fraud floor for time anomalies (`FRAUD_FLOOR_TIME`, line 27). -/
def FRAUD_FLOOR_TIME : ℤ := 90

/-- One signature-validation record as consumed by the signature block of
`_score_metadata`: the parsed signing time (`_parse_sign_dt`, `none` when
absent or unparsable) and the validator booleans (`_safe_bool` keeps
`None`). -/
structure SigRecord where
  signDt : Option ℤ
  intact : Option Bool
  trusted : Option Bool
  coversDocument : Bool
  docmdpOk : Option Bool
deriving DecidableEq, Repr

/-- Time-anomaly block of the signature loop (lines 320-340): a missing
signing time adds the fixed penalty 15; otherwise signing before creation,
after modification, or more than `maxDiffDays` days from the invoice date
each set the `time_issue` flag.  Returns (added issue, reasons, time_issue). -/
def sigTimeCheck (signDt creationDt modificationDt invoiceDt : Option ℤ)
    (maxDiffDays : ℤ) : ℤ × List String × Bool :=
  match signDt with
  | none => (15, ["missing_sign_time"], false)
  | some t =>
    let s1 : List String × Bool :=
      if creationDt.isSome ∧ t < creationDt.getD 0 then
        (["sign_before_creation"], true) else ([], false)
    let s2 : List String × Bool :=
      if modificationDt.isSome ∧ modificationDt.getD 0 < t then
        (s1.1 ++ ["sign_after_modification"], true) else s1
    let s3 : List String × Bool :=
      if invoiceDt.isSome ∧ maxDiffDays < |t - invoiceDt.getD 0| then
        (s2.1 ++ ["invoice_date_far"], true) else s2
    (0, s3.1, s3.2)

/-- Embedding of the per-signature scoring of `_score_metadata` (lines
296-367): the `intact is False` catastrophic short-circuit, the time-anomaly
fraud floor, the additive penalties from `SIGNATURES_WEIGHTS` (untrusted +25,
indeterminate +10, not covering +8, DocMDP failure +8), and the final clamp
`max(0, min(100, issue))`. -/
def scoreSignature (s : SigRecord) (creationDt modificationDt invoiceDt : Option ℤ)
    (maxDiffDays : ℤ) : ℤ × List String :=
  if s.intact = some false then (CATASTROPHIC_INTEGRITY, ["integrity_fail"])
  else
    let tc := sigTimeCheck s.signDt creationDt modificationDt invoiceDt maxDiffDays
    let issue1 := if tc.2.2 then max tc.1 FRAUD_FLOOR_TIME else tc.1
    let st2 : ℤ × List String :=
      if s.trusted = some false then (issue1 + 25, tc.2.1 ++ ["untrusted_chain"])
      else if s.trusted = none then (issue1 + 10, tc.2.1 ++ ["indeterminate_chain"])
      else (issue1, tc.2.1)
    let st3 := if ¬ s.coversDocument then (st2.1 + 8, st2.2 ++ ["not_cover_entire"]) else st2
    let st4 := if s.docmdpOk = some false then (st3.1 + 8, st3.2 ++ ["docmdp_fail"]) else st3
    (max 0 (min 100 st4.1), st4.2)

set_option maxHeartbeats 1000000 in
lemma annotRiskBase_ge10 (s : String) : 10 ≤ annotRiskBase s := by
  unfold annotRiskBase
  split <;> norm_num

lemma annotFlagsStage_le (a : Annot) (st : ℤ × List String) :
    st.1 ≤ (annotFlagsStage a st).1 := by
  simp only [annotFlagsStage]
  split_ifs <;> simp [le_max_iff]

lemma annotActionStage_le (actionS : String) (st : ℤ × List String) :
    st.1 ≤ (annotActionStage actionS st).1 := by
  simp only [annotActionStage]
  split_ifs <;> simp [le_max_iff]

lemma annotUriStage_le (ctx : AnnotCtx) (uri : String) (st : ℤ × List String) :
    st.1 ≤ (annotUriStage ctx uri st).1 := by
  simp only [annotUriStage]
  split_ifs <;> simp [le_max_iff]

lemma annotRectStage_le (ctx : AnnotCtx) (a : Annot) (st : ℤ × List String) :
    st.1 ≤ (annotRectStage ctx a st).1 := by
  simp only [annotRectStage]
  split_ifs <;> simp [le_max_iff]

lemma annotTimeStage_le (ctx : AnnotCtx) (a : Annot) (st : ℤ × List String) :
    st.1 ≤ (annotTimeStage ctx a st).1 := by
  simp only [annotTimeStage]
  split_ifs <;> simp [le_max_iff]

lemma annotContentsStage_le (subtype : String) (a : Annot) (st : ℤ × List String) :
    st.1 ≤ (annotContentsStage subtype a st).1 := by
  simp only [annotContentsStage]
  split_ifs <;> simp [le_max_iff]

lemma scoreSingleAnnot_ge10 (ctx : AnnotCtx) (a : Annot) :
    10 ≤ (scoreSingleAnnot ctx a).1 := by
  simp only [scoreSingleAnnot]
  refine le_min (by norm_num) (le_max_of_le_right ?_)
  refine le_trans ?_ (annotContentsStage_le _ _ _)
  refine le_trans ?_ (annotTimeStage_le _ _ _)
  refine le_trans ?_ (annotRectStage_le _ _ _)
  refine le_trans ?_ (annotUriStage_le _ _ _)
  refine le_trans ?_ (annotActionStage_le _ _)
  refine le_trans ?_ (annotFlagsStage_le _ _)
  simpa using annotRiskBase_ge10 (nameOf a.subtype)

lemma nudgedScore_ge10 (lc : ℕ) (a : Annot) (res : ℤ) (h : 10 ≤ res) :
    10 ≤ nudgedScore lc a res := by
  unfold nudgedScore
  split_ifs <;> omega

lemma annotRisk_ge10 (ctx : AnnotCtx) (annots : List Annot) (a : Annot) :
    10 ≤ annotRisk ctx annots a :=
  nudgedScore_ge10 _ _ _ (scoreSingleAnnot_ge10 ctx a)

lemma foldr_max_ge {l : List ℤ} (hne : l ≠ []) (h : ∀ x ∈ l, 10 ≤ x) :
    10 ≤ l.foldr max 0 := by
  cases l with
  | nil => exact absurd rfl hne
  | cons x t =>
    exact le_max_of_le_left (h x (List.mem_cons_self x t))

/-- C10: every per-annotation risk after the link nudges is at least 10 (the
smallest base-table value), hence for a non-empty annotation list the
document annotation score is at least 10 and equals the raw maximum — the
`a_score == 0` floor branch is unreachable. -/
theorem claim10_annot_floor_unreachable :
    (∀ (ctx : AnnotCtx) (annots : List Annot) (a : Annot),
      10 ≤ annotRisk ctx annots a) ∧
    (∀ (ctx : AnnotCtx) (annots : List Annot), annots ≠ [] →
      10 ≤ docAnnotScore ctx annots ∧
      docAnnotScore ctx annots = maxAnnotRisk ctx annots) := by
  refine ⟨annotRisk_ge10, fun ctx annots hne => ?_⟩
  have hmax : 10 ≤ maxAnnotRisk ctx annots := by
    unfold maxAnnotRisk
    refine foldr_max_ge ?_ ?_
    · simpa using hne
    · intro x hx
      obtain ⟨a, _, rfl⟩ := List.mem_map.mp hx
      exact annotRisk_ge10 ctx annots a
  have hz : ¬ (maxAnnotRisk ctx annots = 0 ∧ annots ≠ []) := by
    rintro ⟨h0, -⟩
    omega
  unfold docAnnotScore
  rw [if_neg hz]
  exact ⟨hmax, rfl⟩

/-- Witness context with no page areas, no document dates, no allow-list. -/
def sampleCtx : AnnotCtx := ⟨fun _ => none, none, none, none, fun _ => ""⟩

/-- Witness annotation: a bare Link annotation. -/
def sampleLink : Annot :=
  ⟨1, some "Link", none, ⟨false, false, false, false⟩, none, none, none, none⟩

/-- Witness annotation: a bare Stamp annotation. -/
def sampleStamp : Annot :=
  ⟨1, some "Stamp", none, ⟨false, false, false, false⟩, none, none, none, none⟩

/-- Witness for C10 on a concrete non-empty annotation list. -/
theorem claim10_annot_floor_unreachable_witness :
    ([sampleLink] ≠ ([] : List Annot)) ∧
    (10 ≤ docAnnotScore sampleCtx [sampleLink] ∧
      docAnnotScore sampleCtx [sampleLink] = maxAnnotRisk sampleCtx [sampleLink]) :=
  ⟨List.cons_ne_nil _ _,
   claim10_annot_floor_unreachable.2 sampleCtx [sampleLink] (List.cons_ne_nil _ _)⟩

lemma foldr_max_perm {l l' : List ℤ} (h : l.Perm l') (i : ℤ) :
    l.foldr max i = l'.foldr max i := by
  induction h with
  | nil => rfl
  | cons x _ ih => simp [List.foldr, ih]
  | swap x y l => simp [List.foldr, max_left_comm]
  | trans _ _ ih1 ih2 => rw [ih1, ih2]

lemma linkCount_perm {l l' : List Annot} (h : l.Perm l') :
    linkCount l = linkCount l' :=
  (h.filter _).length_eq

/-- C6: annotation scoring is order-independent — permuting the annotation
list leaves the final per-document annotation score unchanged and permutes
(hence preserves as a set) the annotations flagged suspicious (score ≥ 70). -/
theorem claim6_annot_order_independent (ctx : AnnotCtx) (l l' : List Annot)
    (h : l.Perm l') :
    docAnnotScore ctx l = docAnnotScore ctx l' ∧
    (suspiciousAnnots ctx l).Perm (suspiciousAnnots ctx l') := by
  have hlc : linkCount l = linkCount l' := linkCount_perm h
  have hfun : ∀ a, annotRisk ctx l a = annotRisk ctx l' a := by
    intro a
    simp [annotRisk, hlc]
  have hmax : maxAnnotRisk ctx l = maxAnnotRisk ctx l' := by
    unfold maxAnnotRisk
    have h1 : l'.map (annotRisk ctx l') = l'.map (annotRisk ctx l) := by
      simp only [List.map_inj_left]
      intro a _
      exact (hfun a).symm
    rw [h1]
    exact foldr_max_perm (h.map _) 0
  constructor
  · unfold docAnnotScore
    have hne : (l = []) ↔ (l' = []) := by
      constructor
      · intro he
        exact ((he ▸ h : ([] : List Annot).Perm l').symm).eq_nil
      · intro he
        exact (he ▸ h : l.Perm ([] : List Annot)).eq_nil
    rw [hmax]
    simp only [ne_eq, hne]
  · unfold suspiciousAnnots
    have h2 : l'.filter (fun a => decide (70 ≤ annotRisk ctx l' a)) =
        l'.filter (fun a => decide (70 ≤ annotRisk ctx l a)) := by
      refine List.filter_congr ?_
      intro a _
      simp [hfun a]
    rw [h2]
    exact h.filter _

/-- Witness for C6 on a concrete two-element permutation. -/
theorem claim6_annot_order_independent_witness :
    ([sampleLink, sampleStamp].Perm [sampleStamp, sampleLink]) ∧
    (docAnnotScore sampleCtx [sampleLink, sampleStamp] =
        docAnnotScore sampleCtx [sampleStamp, sampleLink] ∧
      (suspiciousAnnots sampleCtx [sampleLink, sampleStamp]).Perm
        (suspiciousAnnots sampleCtx [sampleStamp, sampleLink])) :=
  ⟨List.Perm.swap sampleStamp sampleLink [],
   claim6_annot_order_independent sampleCtx _ _
     (List.Perm.swap sampleStamp sampleLink [])⟩

/-- C3: a signature record with `intact = False` scores exactly the
catastrophic integrity floor 85, with `integrity_fail` as its only reason,
regardless of signing time, trust, coverage and DocMDP fields — the
evaluation short-circuits before any other penalty or floor applies. -/
theorem claim3_intact_false_is_85 (s : SigRecord)
    (creationDt modificationDt invoiceDt : Option ℤ) (maxDiffDays : ℤ)
    (h : s.intact = some false) :
    scoreSignature s creationDt modificationDt invoiceDt maxDiffDays =
      (85, ["integrity_fail"]) ∧ CATASTROPHIC_INTEGRITY = 85 := by
  constructor
  · unfold scoreSignature
    rw [if_pos h]
    rfl
  · rfl

/-- Witness for C3: a broken-integrity signature with every other field at
its most adversarial value still scores exactly 85. -/
theorem claim3_intact_false_is_85_witness :
    ((⟨some 99999, some false, some false, false, some false⟩ :
        SigRecord).intact = some false) ∧
    (scoreSignature ⟨some 99999, some false, some false, false, some false⟩
        (some 0) (some 1) (some 2) 60 = (85, ["integrity_fail"]) ∧
      CATASTROPHIC_INTEGRITY = 85) :=
  ⟨rfl, claim3_intact_false_is_85 _ _ _ _ _ rfl⟩

/-- The `re.sub(r"^[^+]+\x2b", "", base)` step of `_normalize_font_name`:
when the string has a first `+` preceded by at least one non-`+` character,
drop everything up to and including that `+` (the anchored pattern matches at
most once). -/
def stripSubsetTag (cs : List Char) : List Char :=
  let a := cs.takeWhile (fun ch => ch ≠ '+')
  let r := cs.dropWhile (fun ch => ch ≠ '+')
  if a ≠ [] ∧ r ≠ [] then r.tail else cs

/-- Embedding of `_normalize_font_name` (font_anomaly_detector.py lines
160-173): lowercase, drop the subset tag before a `+`, then keep the part
before the first `-` or `,` (`re.split(r"[-,]", base)[0]`). -/
def normalize_font_name (font : String) : String :=
  let base := font.data.map Char.toLower
  let base2 := stripSubsetTag base
  String.mk (base2.takeWhile (fun ch => ch ≠ '-' ∧ ch ≠ ','))

/-- C4 (code bug): on the code as written,
`normalize("HELVETICA+Italic-Bold")` is `"italic"`, not
`normalize("helvetica") = "helvetica"` — contradicting both the claim and
the function's own docstring example (`'Helvetica+Italic' -> 'helvetica'`) —
and normalization is not idempotent: `normalize("a+b+c") = "b+c"` while
`normalize("b+c") = "c"`. -/
theorem claim4_normalize_code_bug :
    normalize_font_name "HELVETICA+Italic-Bold" = "italic" ∧
    normalize_font_name "helvetica" = "helvetica" ∧
    normalize_font_name "HELVETICA+Italic-Bold" ≠ normalize_font_name "helvetica" ∧
    normalize_font_name "Helvetica+Italic" = "italic" ∧
    normalize_font_name "a+b+c" = "b+c" ∧
    normalize_font_name (normalize_font_name "a+b+c") ≠ normalize_font_name "a+b+c" := by
  refine ⟨by decide, by decide, by decide, by decide, by decide, by decide⟩

/-- One `{min_score, label}` banding entry (`class Band` in
client_config.py; `min` is the minimum score of the band). -/
structure Band where
  min : ℤ
  label : String
deriving DecidableEq, Repr

/-- Python `str.lower()` on a label (ASCII lowering, as in the enum labels). -/
def lowerString (s : String) : String := String.mk (s.data.map Char.toLower)

/-- Parsing a lowered label into the `Severity` enum: `Severity(value)`
succeeds exactly on the four enum values. -/
def severityOfString (s : String) : Option Severity :=
  match s with
  | "low" => some .low
  | "medium" => some .medium
  | "high" => some .high
  | "critical" => some .critical
  | _ => none

/-- Parsing a lowered label into the `Status` enum: `Status(value)` succeeds
exactly on the five enum values. -/
def statusOfString (s : String) : Option Status :=
  match s with
  | "pass" => some .pass
  | "warn" => some .warn
  | "risk" => some .risk
  | "error" => some .error
  | "skipped" => some .skipped
  | _ => none

/-- Embedding of `ClientConfig.severity_for` (client_config.py lines 35-46):
score range assertion, scan for the first band with `min <= score`, then
`Severity(band.label.lower())`; an unrecognized label in the scan RAISES
`ValueError` (modelled as `Except.error`); if no band matches, the fallback
parses the last band's label (an empty band list raises `IndexError`). -/
def severity_for (bands : List Band) (score : ℤ) : Except String Severity :=
  if score < 0 ∨ 100 < score then
    .error "Score must be an integer in [0, 100]"
  else
    match bands.find? (fun b => b.min ≤ score) with
    | some b =>
      match severityOfString (lowerString b.label) with
      | some sev => .ok sev
      | none => .error ("Unknown severity label '" ++ b.label ++ "' in config")
    | none =>
      match bands.getLast? with
      | some b =>
        match severityOfString (lowerString b.label) with
        | some sev => .ok sev
        | none => .error ("'" ++ (lowerString b.label) ++ "' is not a valid Severity")
      | none => .error "IndexError: list index out of range"

/-- Embedding of `ClientConfig.status_for` (client_config.py lines 48-60):
like `severity_for`, but an unrecognized label inside the scan is caught,
printed, and mapped to `Status('error')` instead of raising; the unguarded
fallback on the last band can still raise. -/
def status_for (bands : List Band) (score : ℤ) : Except String Status :=
  if score < 0 ∨ 100 < score then
    .error "Score must be an integer in [0, 100]"
  else
    match bands.find? (fun b => b.min ≤ score) with
    | some b =>
      match statusOfString (lowerString b.label) with
      | some st => .ok st
      | none => .ok Status.error
    | none =>
      match bands.getLast? with
      | some b =>
        match statusOfString (lowerString b.label) with
        | some st => .ok st
        | none => .error ("'" ++ (lowerString b.label) ++ "' is not a valid Status")
      | none => .error "IndexError: list index out of range"

/-- C8 counterexample: with a single band `{min: 0, label: "bogus"}` and
score 50, `status_for` does surface the `error` status, but `severity_for`
raises a `ValueError` instead of returning a visible error status — the
claim is false for `severity_for`. -/
theorem claim8_counterexample :
    severity_for [⟨0, "bogus"⟩] 50 =
      Except.error "Unknown severity label 'bogus' in config" ∧
    status_for [⟨0, "bogus"⟩] 50 = Except.ok Status.error := by
  refine ⟨rfl, rfl⟩

/-- C8 (amended): for every banding configuration and score in `[0,100]`
whose first matching band carries an unrecognized label, `status_for`
returns the visible `error` status, while `severity_for` raises a
`ValueError` naming the label (it does not crash with an unrelated error,
but it does not return a status either). -/
theorem claim8_amended_banding (bandsSev bandsStat : List Band) (score : ℤ)
    (b bs : Band) (h0 : 0 ≤ score) (h1 : score ≤ 100)
    (hfind : bandsSev.find? (fun bb => bb.min ≤ score) = some b)
    (hlabel : severityOfString (lowerString b.label) = none)
    (hfind2 : bandsStat.find? (fun bb => bb.min ≤ score) = some bs)
    (hlabel2 : statusOfString (lowerString bs.label) = none) :
    status_for bandsStat score = Except.ok Status.error ∧
    severity_for bandsSev score =
      Except.error ("Unknown severity label '" ++ b.label ++ "' in config") := by
  have hrange : ¬ (score < 0 ∨ 100 < score) := by omega
  constructor
  · unfold status_for
    rw [if_neg hrange, hfind2]
    simp [hlabel2]
  · unfold severity_for
    rw [if_neg hrange, hfind]
    simp [hlabel]

/-- Witness for C8 (amended) at the concrete bogus-label configuration. -/
theorem claim8_amended_banding_witness :
    ((0 : ℤ) ≤ 50 ∧ (50 : ℤ) ≤ 100 ∧
     [(⟨0, "bogus"⟩ : Band)].find? (fun bb => bb.min ≤ 50) = some ⟨0, "bogus"⟩ ∧
     severityOfString (lowerString (Band.mk 0 "bogus").label) = none ∧
     statusOfString (lowerString (Band.mk 0 "bogus").label) = none) ∧
    (status_for [⟨0, "bogus"⟩] 50 = Except.ok Status.error ∧
     severity_for [⟨0, "bogus"⟩] 50 =
       Except.error ("Unknown severity label '" ++ (Band.mk 0 "bogus").label ++ "' in config")) :=
  ⟨⟨by decide, by decide, by decide, by decide, by decide⟩,
   claim8_amended_banding [⟨0, "bogus"⟩] [⟨0, "bogus"⟩] 50 ⟨0, "bogus"⟩ ⟨0, "bogus"⟩
     (by decide) (by decide) (by decide) (by decide) (by decide) (by decide)⟩

/-- Embedding of the static method `_wilson_upper_bound`
(font_anomaly_detector.py lines 270-278), over the reals since the source
takes a square root: `(center + rad) / denom` with
`phat = count/total`, `denom = 2(total + z²)`, `center = 2·total·phat + z²`,
`rad = z·sqrt(z² + 4·total·phat·(1-phat))`; `0.0` for non-positive totals. -/
noncomputable def wilson_upper_bound (count total : ℤ) (z : ℝ) : ℝ :=
  if total ≤ 0 then 0
  else
    let phat : ℝ := (count : ℝ) / (total : ℝ)
    let denom := 2 * ((total : ℝ) + z * z)
    let center := 2 * (total : ℝ) * phat + z * z
    let rad := z * Real.sqrt (z * z + 4 * (total : ℝ) * phat * (1 - phat))
    (center + rad) / denom

/-- Python `min` over the values of a non-empty dict (`min(font_counts.values())`);
`0` for the empty list (unreachable in the guarded caller). -/
def listMin : List ℕ → ℕ
  | [] => 0
  | c :: cs => cs.foldl Nat.min c

/-- The `k_star` of `_dynamic_doc_threshold`:
`min(rare_k_max, max(1, k_min))` with `k_min` the rarest observed count. -/
def kStarOf (rareKMax : ℕ) (fontCounts : List ℕ) : ℕ :=
  min rareKMax (max 1 (listMin fontCounts))

/-- Embedding of `_dynamic_doc_threshold` (font_anomaly_detector.py lines
280-314); `fontCounts` is the value list of the per-document normalized font
count dict.  Degenerate documents yield 1.0 (nothing flagged); a single
distinct font yields 0.0; otherwise the threshold is placed at
`ub(k*) + alpha (ub(k*+1) - ub(k*))`, capped at 0.35, nudged above `ub(k*)`,
and floored at 0.001. -/
noncomputable def dynamic_doc_threshold (rareKMax : ℕ) (z alpha : ℝ)
    (totalWords : ℤ) (fontCounts : List ℕ) : ℝ :=
  if totalWords ≤ 0 ∨ fontCounts = [] then 1
  else if fontCounts.length = 1 then 0
  else
    let kStar := kStarOf rareKMax fontCounts
    let ubK := wilson_upper_bound kStar totalWords z
    let ubNext0 := wilson_upper_bound (min ((kStar : ℤ) + 1) totalWords) totalWords z
    let ubNext := if ubNext0 ≤ ubK then
        min 1 (ubK + 1 / ((max 1 totalWords : ℤ) : ℝ)) else ubNext0
    let tRaw := ubK + alpha * (ubNext - ubK)
    let tCap := min tRaw 0.35
    let tNudged := if tCap ≤ ubK then ubK + 1e-6 else tCap
    max 0.001 tNudged

/-- The exceptions the font detector can raise.  The code raises the builtin
`ValueError`; the constructor `missingDetectionInputError` stands for the
distinct exception type named by the spec, which exists nowhere in the
repository — it is included so the claim about it can be stated. -/
inductive PyExn where
  | valueError (msg : String)
  | missingDetectionInputError
deriving DecidableEq, Repr

/-- One OCR word record (`{text, bbox, font}`), the inner dict of the OCR
output consumed by `FontAnomalyDetector.detect`. -/
structure Word where
  text : String
  bbox : List ℚ
  font : Option String
deriving DecidableEq, Repr

/-- A word together with the 1-based page number attached by the first loop
of `detect` (`w["page"] = page_num`). -/
structure PageWord where
  word : Word
  page : ℕ
deriving DecidableEq, Repr

/-- One font-anomaly finding (the result dict built by
`_detect_font_anomaly`); the human-readable `reason` string (formatted
floats) is not modelled. -/
structure Finding where
  text : String
  box : List ℚ
  page : ℕ
  font : String
  present : ℝ
  pValue : ℝ
  score : ℤ

/-- The `FontAnomalyDetector` configuration (constructor arguments of the
class).  Regular-expression matching (`context_markers`,
`ignore_text_patterns`) is modelled by abstract Boolean predicates on
strings, and the image-based branch `_detect_image_anomaly`
(IsolationForest / sigma-rule over HOG and LBP features) by an abstract
function — both are outside the statistical scoring core. -/
structure Detector (Img : Type) where
  rareKMax : ℕ
  ciZ : ℝ
  alpha : ℝ
  contextMarkersMatch : String → Bool
  ignoreTextMatch : String → Bool
  ignoreOnlyInHeaderFooter : Bool
  headerRt : ℚ
  footerStartRt : ℚ
  imageDetect : List PageWord → Img → List Finding

/-- Page-number attachment loop of `detect` (lines 90-95): pages are
enumerated from 1 in order. -/
def wordsWithPages (ocr : List (List Word)) : List PageWord :=
  (ocr.enum.map (fun pg => pg.2.map (fun w => PageWord.mk w (pg.1 + 1)))).join

/-- The text joined for `_has_context_markers`:
`" ".join((w.get("text") or "") for w in words)`. -/
def joinedText (words : List PageWord) : String :=
  String.intercalate " " (words.map (fun w => w.word.text))

/-- Index 3 of a bbox, defaulting like `w.get("bbox", [0,0,0,0])[3]`. -/
def bboxY1 (w : PageWord) : ℚ := w.word.bbox.getD 3 0

/-- Index 1 of a bbox (`y0` after tuple unpacking). -/
def bboxY0 (w : PageWord) : ℚ := w.word.bbox.getD 1 0

/-- The `_page_max_y_map` entry for one page with the `.get(page, 0.0)`
default: the maximum `y1` over the words of that page. -/
def pageMaxY (words : List PageWord) (p : ℕ) : ℚ :=
  ((words.filter (fun w => w.page = p)).map bboxY1).foldr max 0

/-- Embedding of `_is_in_header_footer`: false without a bbox or a positive
page height, else the relative header/footer band test. -/
def isInHeaderFooter (d : Detector Img) (w : PageWord) (pageHeight : ℚ) : Bool :=
  if w.word.bbox = [] ∨ pageHeight ≤ 0 then false
  else
    bboxY1 w ≤ d.headerRt * pageHeight ∨ d.footerStartRt * pageHeight ≤ bboxY0 w

/-- Embedding of `_should_ignore_word`: only with a document-level context
marker, a non-blank text matching an ignore pattern, and (by default) a
header/footer location. -/
def shouldIgnoreWord (d : Detector Img) (w : PageWord) (hasCtx : Bool)
    (pageHeight : ℚ) : Bool :=
  if ¬ hasCtx then false
  else if w.word.text.trim = "" then false
  else if ¬ d.ignoreTextMatch w.word.text.trim then false
  else if d.ignoreOnlyInHeaderFooter then isInHeaderFooter d w pageHeight
  else true

/-- Python truthiness of the `font` value (`if f:`): present and non-empty. -/
def truthyFont : Option String → Bool
  | none => false
  | some s => s ≠ ""

/-- The `total_with_font` accumulator of `_detect_font_anomaly`. -/
def fontTotal (words : List PageWord) : ℕ :=
  (words.filter (fun w => truthyFont w.word.font)).length

/-- The count `font_counts[norm]` for one normalized font name. -/
def normCountOf (words : List PageWord) (nf : String) : ℕ :=
  (words.filter (fun w => truthyFont w.word.font ∧
    normalize_font_name (w.word.font.getD "") = nf)).length

/-- The distinct normalized font names of the document (the keys of
`font_counts`). -/
def normFonts (words : List PageWord) : List String :=
  (((words.filter (fun w => truthyFont w.word.font)).map
    (fun w => normalize_font_name (w.word.font.getD ""))).dedup)

/-- Embedding of `_binom_cdf_le` (lines 115-120):
`sum_{i=0..k} C(n,i) p^i (1-p)^(n-i)` (`i ≤ k ≤ n` at every call site, so
the natural subtraction `n - i` agrees with Python). -/
noncomputable def binom_cdf_le (k n : ℕ) (p : ℝ) : ℝ :=
  ∑ i ∈ Finset.range (k + 1), (n.choose i : ℝ) * p ^ i * (1 - p) ^ (n - i)

/-- Python `round` on a real value (ties to even), for
`int(round(100 * (1 - pval)))`. -/
noncomputable def pyRoundR (x : ℝ) : ℤ :=
  if x - ⌊x⌋ < 1/2 then ⌊x⌋
  else if 1/2 < x - ⌊x⌋ then ⌊x⌋ + 1
  else if ⌊x⌋ % 2 = 0 then ⌊x⌋ else ⌊x⌋ + 1

/-- Embedding of `_detect_font_anomaly` (lines 122-158): build the
normalized font counts, derive the document threshold, and flag every word
whose font's Wilson upper bound falls strictly below it, with the
binomial-tail severity score. -/
noncomputable def detectFontAnomaly (d : Detector Img) (words : List PageWord) :
    List Finding :=
  let total := fontTotal words
  let counts := (normFonts words).map (normCountOf words)
  let tDoc := dynamic_doc_threshold d.rareKMax d.ciZ d.alpha (total : ℤ) counts
  words.filterMap (fun w =>
    if truthyFont w.word.font then
      let f := w.word.font.getD ""
      let norm := normalize_font_name f
      let cnt := normCountOf words norm
      let present := (cnt : ℝ) / (total : ℝ)
      let ub := wilson_upper_bound (cnt : ℤ) (total : ℤ) d.ciZ
      if ub < tDoc then
        let pval := binom_cdf_le cnt total tDoc
        some ⟨w.word.text, w.word.bbox, w.page, f, present, pval,
          pyRoundR (100 * (1 - pval))⟩
      else none
    else none)

/-- Embedding of `FontAnomalyDetector.detect` (lines 87-110): attach page
numbers, filter ignorable words, then dispatch — font statistics when any
word has a font, the image detector when an image is supplied, and otherwise
`raise ValueError(...)`. -/
noncomputable def detect (d : Detector Img) (ocr : List (List Word))
    (image : Option Img) : Except PyExn (List Finding) :=
  let wwp := wordsWithPages ocr
  let docHasCtx := d.contextMarkersMatch (joinedText wwp)
  let wordsFiltered := wwp.filter
    (fun w => ¬ shouldIgnoreWord d w docHasCtx (pageMaxY wwp w.page))
  let hasFont := wwp.any (fun w => w.word.font.isSome)
  if hasFont then .ok (detectFontAnomaly d wordsFiltered)
  else
    match image with
    | some img => .ok (d.imageDetect wordsFiltered img)
    | none => .error (.valueError "No font info and no image provided for anomaly detection.")

lemma wilsonA_nonneg {T z p : ℝ} (hz : 0 ≤ z) (hp0 : 0 ≤ p) (hp1 : p ≤ 1)
    (hT : 0 < T) : 0 ≤ z * z + 4 * T * p * (1 - p) := by
  have h1 : 0 ≤ 4 * T * p := by positivity
  have h2 : 0 ≤ 1 - p := by linarith
  nlinarith [mul_nonneg h1 h2, mul_self_nonneg z]

lemma sqrt_ge_z {T z p : ℝ} (hz : 0 ≤ z) (hp0 : 0 ≤ p) (hp1 : p ≤ 1)
    (hT : 0 < T) : z ≤ Real.sqrt (z * z + 4 * T * p * (1 - p)) := by
  have h1 : 0 ≤ 4 * T * p := by positivity
  have h2 : 0 ≤ 1 - p := by linarith
  have h3 : z * z ≤ z * z + 4 * T * p * (1 - p) := by nlinarith [mul_nonneg h1 h2]
  calc z = Real.sqrt (z * z) := (Real.sqrt_mul_self hz).symm
    _ ≤ _ := Real.sqrt_le_sqrt h3

lemma wilsonNum_le_denom {T z p : ℝ} (hT : 0 < T) (hz : 0 ≤ z)
    (hp0 : 0 ≤ p) (hp1 : p ≤ 1) :
    2 * T * p + z * z + z * Real.sqrt (z * z + 4 * T * p * (1 - p)) ≤
      2 * (T + z * z) := by
  have hA0 : 0 ≤ z * z + 4 * T * p * (1 - p) := wilsonA_nonneg hz hp0 hp1 hT
  have hR0 : 0 ≤ 2 * T * (1 - p) + z * z := by nlinarith
  have hkey : z * Real.sqrt (z * z + 4 * T * p * (1 - p)) ≤ 2 * T * (1 - p) + z * z := by
    have hzs : z * Real.sqrt (z * z + 4 * T * p * (1 - p)) =
        Real.sqrt ((z * z) * (z * z + 4 * T * p * (1 - p))) := by
      rw [Real.sqrt_mul (mul_self_nonneg z), Real.sqrt_mul_self hz]
    have hsq : (z * z) * (z * z + 4 * T * p * (1 - p)) ≤
        (2 * T * (1 - p) + z * z) ^ 2 := by
      have e1 : 0 ≤ 4 * (T * T) * ((1 - p) * (1 - p)) :=
        mul_nonneg (by positivity) (mul_self_nonneg _)
      have e2 : 0 ≤ 4 * T * (z * z) * ((1 - p) * (1 - p)) :=
        mul_nonneg (by positivity) (mul_self_nonneg _)
      nlinarith [e1, e2]
    calc z * Real.sqrt (z * z + 4 * T * p * (1 - p)) =
        Real.sqrt ((z * z) * (z * z + 4 * T * p * (1 - p))) := hzs
      _ ≤ Real.sqrt ((2 * T * (1 - p) + z * z) ^ 2) := Real.sqrt_le_sqrt hsq
      _ = 2 * T * (1 - p) + z * z := Real.sqrt_sq hR0
  nlinarith [hkey]

lemma wilsonNum_mono {T z p1 p2 : ℝ} (hT : 0 < T) (hz : 0 ≤ z)
    (hp0 : 0 ≤ p1) (hp12 : p1 ≤ p2) (hp1 : p2 ≤ 1) :
    2 * T * p1 + z * z + z * Real.sqrt (z * z + 4 * T * p1 * (1 - p1)) ≤
      2 * T * p2 + z * z + z * Real.sqrt (z * z + 4 * T * p2 * (1 - p2)) := by
  have hp01 : p1 ≤ 1 := le_trans hp12 hp1
  have hp02 : 0 ≤ p2 := le_trans hp0 hp12
  have hA1 : 0 ≤ z * z + 4 * T * p1 * (1 - p1) := wilsonA_nonneg hz hp0 hp01 hT
  have hA2 : 0 ≤ z * z + 4 * T * p2 * (1 - p2) := wilsonA_nonneg hz hp02 hp1 hT
  set s1 := Real.sqrt (z * z + 4 * T * p1 * (1 - p1)) with hs1def
  set s2 := Real.sqrt (z * z + 4 * T * p2 * (1 - p2)) with hs2def
  have hs1 : s1 ^ 2 = z * z + 4 * T * p1 * (1 - p1) := Real.sq_sqrt hA1
  have hs2 : s2 ^ 2 = z * z + 4 * T * p2 * (1 - p2) := Real.sq_sqrt hA2
  have hz1 : z ≤ s1 := sqrt_ge_z hz hp0 hp01 hT
  have hz2 : z ≤ s2 := sqrt_ge_z hz hp02 hp1 hT
  have hgap : 0 ≤ 2 * T * (p2 - p1) := by nlinarith
  rcases le_or_lt s1 s2 with hle | hgt
  · have := mul_le_mul_of_nonneg_left hle hz
    nlinarith
  · have hdiff : (s1 - s2) * (s1 + s2) =
        (z * z + 4 * T * p1 * (1 - p1)) - (z * z + 4 * T * p2 * (1 - p2)) := by
      have : (s1 - s2) * (s1 + s2) = s1 ^ 2 - s2 ^ 2 := by ring
      rw [this, hs1, hs2]
    have hfac : 0 ≤ (p2 - p1) * (2 - p1 - p2) :=
      mul_nonneg (by linarith) (by linarith)
    have hAle : (z * z + 4 * T * p1 * (1 - p1)) - (z * z + 4 * T * p2 * (1 - p2)) ≤
        4 * T * (p2 - p1) := by nlinarith [mul_nonneg hT.le hfac]
    have hsum : 2 * z ≤ s1 + s2 := by linarith
    have hds : 0 < s1 - s2 := by linarith
    rcases eq_or_lt_of_le hz with hz0 | hzpos
    · have hzz : z = 0 := hz0.symm
      rw [hzz]
      nlinarith
    · have h1 : z * ((s1 - s2) * (s1 + s2)) ≤ z * (4 * T * (p2 - p1)) := by
        apply mul_le_mul_of_nonneg_left _ hz
        rw [hdiff]
        exact hAle
      have h2 : z * ((s1 - s2) * (2 * z)) ≤ z * ((s1 - s2) * (s1 + s2)) := by
        apply mul_le_mul_of_nonneg_left _ hz
        exact mul_le_mul_of_nonneg_left hsum hds.le
      have h3 : 2 * z * (z * (s1 - s2)) ≤ 2 * z * (2 * T * (p2 - p1)) := by
        nlinarith [h1, h2]
      have h4 : z * (s1 - s2) ≤ 2 * T * (p2 - p1) :=
        le_of_mul_le_mul_left h3 (by positivity)
      nlinarith [h4]

lemma wilsonNum_lt {T z p1 p2 : ℝ} (hT : 0 < T) (hz : 0 ≤ z)
    (hp0 : 0 ≤ p1) (hp12 : p1 < p2) (hpsum : p1 + p2 ≤ 1) :
    2 * T * p1 + z * z + z * Real.sqrt (z * z + 4 * T * p1 * (1 - p1)) <
      2 * T * p2 + z * z + z * Real.sqrt (z * z + 4 * T * p2 * (1 - p2)) := by
  have hp1le : p1 ≤ 1 := by nlinarith
  have hp2le : p2 ≤ 1 := by nlinarith
  have hAle : z * z + 4 * T * p1 * (1 - p1) ≤ z * z + 4 * T * p2 * (1 - p2) := by
    have hfac : 0 ≤ (p2 - p1) * (1 - p1 - p2) := mul_nonneg (by linarith) (by linarith)
    nlinarith [mul_nonneg hT.le hfac]
  have hsle : Real.sqrt (z * z + 4 * T * p1 * (1 - p1)) ≤
      Real.sqrt (z * z + 4 * T * p2 * (1 - p2)) := Real.sqrt_le_sqrt hAle
  have := mul_le_mul_of_nonneg_left hsle hz
  nlinarith

lemma wilson_nonneg (count total : ℤ) (z : ℝ) (h0 : 0 ≤ count)
    (h1 : count ≤ total) (hz : 0 ≤ z) :
    0 ≤ wilson_upper_bound count total z := by
  unfold wilson_upper_bound
  split
  · exact le_refl 0
  · rename_i htle
    have hT : (0 : ℝ) < (total : ℝ) := by exact_mod_cast lt_of_not_le htle
    have hc : (0 : ℝ) ≤ (count : ℝ) := by exact_mod_cast h0
    have hcle : (count : ℝ) ≤ (total : ℝ) := by exact_mod_cast h1
    have hp0 : 0 ≤ (count : ℝ) / (total : ℝ) := div_nonneg hc hT.le
    have hp1 : (count : ℝ) / (total : ℝ) ≤ 1 := (div_le_one hT).mpr hcle
    apply div_nonneg
    · have hs := Real.sqrt_nonneg
        (z * z + 4 * (total : ℝ) * ((count : ℝ) / (total : ℝ)) *
          (1 - (count : ℝ) / (total : ℝ)))
      nlinarith [mul_nonneg hz hs, mul_nonneg (mul_nonneg (by norm_num : (0:ℝ) ≤ 2) hT.le) hp0, mul_self_nonneg z]
    · nlinarith [mul_self_nonneg z]

lemma wilson_le_one (count total : ℤ) (z : ℝ) (h0 : 0 ≤ count)
    (h1 : count ≤ total) (hz : 0 ≤ z) :
    wilson_upper_bound count total z ≤ 1 := by
  unfold wilson_upper_bound
  split
  · norm_num
  · rename_i htle
    have hT : (0 : ℝ) < (total : ℝ) := by exact_mod_cast lt_of_not_le htle
    have hc : (0 : ℝ) ≤ (count : ℝ) := by exact_mod_cast h0
    have hcle : (count : ℝ) ≤ (total : ℝ) := by exact_mod_cast h1
    have hp0 : 0 ≤ (count : ℝ) / (total : ℝ) := div_nonneg hc hT.le
    have hp1 : (count : ℝ) / (total : ℝ) ≤ 1 := (div_le_one hT).mpr hcle
    have hD : (0 : ℝ) < 2 * ((total : ℝ) + z * z) := by nlinarith [mul_self_nonneg z]
    rw [div_le_one hD]
    have := wilsonNum_le_denom hT hz hp0 hp1
    nlinarith [this]

lemma wilson_mono (count1 count2 total : ℤ) (z : ℝ) (h0 : 0 ≤ count1)
    (h12 : count1 ≤ count2) (h2 : count2 ≤ total) (hz : 0 ≤ z) :
    wilson_upper_bound count1 total z ≤ wilson_upper_bound count2 total z := by
  unfold wilson_upper_bound
  split
  · exact le_refl 0
  · rename_i htle
    have hT : (0 : ℝ) < (total : ℝ) := by exact_mod_cast lt_of_not_le htle
    have hc1 : (0 : ℝ) ≤ (count1 : ℝ) := by exact_mod_cast h0
    have hc12 : (count1 : ℝ) ≤ (count2 : ℝ) := by exact_mod_cast h12
    have hc2 : (count2 : ℝ) ≤ (total : ℝ) := by exact_mod_cast h2
    have hp0 : 0 ≤ (count1 : ℝ) / (total : ℝ) := div_nonneg hc1 hT.le
    have hp12 : (count1 : ℝ) / (total : ℝ) ≤ (count2 : ℝ) / (total : ℝ) :=
      (div_le_div_right hT).mpr hc12
    have hp2le : (count2 : ℝ) / (total : ℝ) ≤ 1 := (div_le_one hT).mpr hc2
    have hD : (0 : ℝ) < 2 * ((total : ℝ) + z * z) := by nlinarith [mul_self_nonneg z]
    exact (div_le_div_right hD).mpr (wilsonNum_mono hT hz hp0 hp12 hp2le)

lemma wilson_lt (count1 count2 total : ℤ) (z : ℝ) (h0 : 0 ≤ count1)
    (h12 : count1 < count2) (hsum : count1 + count2 ≤ total) (hz : 0 ≤ z)
    (htot : 0 < total) :
    wilson_upper_bound count1 total z < wilson_upper_bound count2 total z := by
  unfold wilson_upper_bound
  rw [if_neg (by omega), if_neg (by omega)]
  have hT : (0 : ℝ) < (total : ℝ) := by exact_mod_cast htot
  have hc1 : (0 : ℝ) ≤ (count1 : ℝ) := by exact_mod_cast h0
  have hc12 : (count1 : ℝ) < (count2 : ℝ) := by exact_mod_cast h12
  have hcs : (count1 : ℝ) + (count2 : ℝ) ≤ (total : ℝ) := by exact_mod_cast hsum
  have hp0 : 0 ≤ (count1 : ℝ) / (total : ℝ) := div_nonneg hc1 hT.le
  have hp12 : (count1 : ℝ) / (total : ℝ) < (count2 : ℝ) / (total : ℝ) :=
    (div_lt_div_right hT).mpr hc12
  have hpsum : (count1 : ℝ) / (total : ℝ) + (count2 : ℝ) / (total : ℝ) ≤ 1 := by
    rw [div_add_div_same]
    exact (div_le_one hT).mpr hcs
  have hD : (0 : ℝ) < 2 * ((total : ℝ) + z * z) := by nlinarith [mul_self_nonneg z]
  exact (div_lt_div_right hD).mpr (wilsonNum_lt hT hz hp0 hp12 hpsum)

/-- C5: for all integers `0 ≤ count ≤ total` and reals `z ≥ 0`, the Wilson
upper bound lies in `[0,1]` and is monotonically non-decreasing in the
count. -/
theorem claim5_wilson_bound_monotone (count count' total : ℤ) (z : ℝ)
    (h0 : 0 ≤ count) (h1 : count ≤ total) (hz : 0 ≤ z)
    (h2 : count ≤ count') (h3 : count' ≤ total) :
    (0 ≤ wilson_upper_bound count total z ∧ wilson_upper_bound count total z ≤ 1) ∧
    wilson_upper_bound count total z ≤ wilson_upper_bound count' total z :=
  ⟨⟨wilson_nonneg count total z h0 h1 hz, wilson_le_one count total z h0 h1 hz⟩,
   wilson_mono count count' total z h0 h2 h3 hz⟩

/-- Witness for C5 at `count = 1`, `count' = 2`, `total = 10`, `z = 1.64`. -/
theorem claim5_wilson_bound_monotone_witness :
    ((0 : ℤ) ≤ 1 ∧ (1 : ℤ) ≤ 10 ∧ (0 : ℝ) ≤ 1.64 ∧ (1 : ℤ) ≤ 2 ∧ (2 : ℤ) ≤ 10) ∧
    ((0 ≤ wilson_upper_bound 1 10 1.64 ∧ wilson_upper_bound 1 10 1.64 ≤ 1) ∧
      wilson_upper_bound 1 10 1.64 ≤ wilson_upper_bound 2 10 1.64) :=
  ⟨⟨by norm_num, by norm_num, by norm_num, by norm_num, by norm_num⟩,
   claim5_wilson_bound_monotone 1 2 10 1.64 (by norm_num) (by norm_num)
     (by norm_num) (by norm_num) (by norm_num)⟩

lemma wilson_closed (c total : ℤ) (z : ℝ) (htot : 0 < total) :
    wilson_upper_bound c total z =
      (2 * (c : ℝ) + z * z +
        z * Real.sqrt (z * z + 4 * (c : ℝ) - 4 * (c : ℝ) ^ 2 / (total : ℝ))) /
      (2 * ((total : ℝ) + z * z)) := by
  unfold wilson_upper_bound
  rw [if_neg (by omega)]
  have hT : (0 : ℝ) < (total : ℝ) := by exact_mod_cast htot
  have hT0 : ((total : ℝ)) ≠ 0 := ne_of_gt hT
  have h1 : 2 * (total : ℝ) * ((c : ℝ) / (total : ℝ)) = 2 * (c : ℝ) := by
    field_simp
    try ring
  have h2 : 4 * (total : ℝ) * ((c : ℝ) / (total : ℝ)) * (1 - (c : ℝ) / (total : ℝ)) =
      4 * (c : ℝ) - 4 * (c : ℝ) ^ 2 / (total : ℝ) := by
    field_simp
    try ring
  simp only [h1, h2]
  rw [← add_sub_assoc]

lemma wilson_gap (k total : ℤ) (z : ℝ) (h0 : 0 ≤ k) (hsum : 2 * k + 1 ≤ total)
    (hz : 0 ≤ z) (htot : 0 < total) :
    wilson_upper_bound k total z + 2 / (2 * ((total : ℝ) + z * z)) ≤
      wilson_upper_bound (k + 1) total z := by
  rw [wilson_closed k total z htot, wilson_closed (k + 1) total z htot]
  have hT : (0 : ℝ) < (total : ℝ) := by exact_mod_cast htot
  have hk : (0 : ℝ) ≤ (k : ℝ) := by exact_mod_cast h0
  have hks : 2 * (k : ℝ) + 1 ≤ (total : ℝ) := by exact_mod_cast hsum
  have hD : (0 : ℝ) < 2 * ((total : ℝ) + z * z) := by nlinarith [mul_self_nonneg z]
  have hA1n : 0 ≤ z * z + 4 * (k : ℝ) - 4 * (k : ℝ) ^ 2 / (total : ℝ) := by
    have hfrac : 4 * (k : ℝ) ^ 2 / (total : ℝ) ≤ 4 * (k : ℝ) := by
      rw [div_le_iff hT]
      nlinarith [sq_nonneg ((k : ℝ))]
    nlinarith [mul_self_nonneg z]
  have hsle : Real.sqrt (z * z + 4 * (k : ℝ) - 4 * (k : ℝ) ^ 2 / (total : ℝ)) ≤
      Real.sqrt (z * z + 4 * ((k : ℝ) + 1) - 4 * ((k : ℝ) + 1) ^ 2 / (total : ℝ)) := by
    apply Real.sqrt_le_sqrt
    have hid : (z * z + 4 * ((k : ℝ) + 1) - 4 * ((k : ℝ) + 1) ^ 2 / (total : ℝ)) -
        (z * z + 4 * (k : ℝ) - 4 * (k : ℝ) ^ 2 / (total : ℝ)) =
        4 - (4 * (2 * (k : ℝ) + 1)) / (total : ℝ) := by
      field_simp
      ring
    have hb : (4 * (2 * (k : ℝ) + 1)) / (total : ℝ) ≤ 4 := by
      rw [div_le_iff hT]
      nlinarith
    linarith [hid, hb]
  have hnum : (2 * (k : ℝ) + z * z +
        z * Real.sqrt (z * z + 4 * (k : ℝ) - 4 * (k : ℝ) ^ 2 / (total : ℝ))) + 2 ≤
      2 * ((k : ℝ) + 1) + z * z +
        z * Real.sqrt (z * z + 4 * ((k : ℝ) + 1) - 4 * ((k : ℝ) + 1) ^ 2 / (total : ℝ)) := by
    have := mul_le_mul_of_nonneg_left hsle hz
    nlinarith [this]
  push_cast
  rw [div_add_div_same]
  exact (div_le_div_right hD).mpr hnum

lemma wilson_total_le_of_ge (k total : ℤ) (hk1 : 1 ≤ k) (hk3 : k ≤ 3)
    (htot : 10 ≤ total)
    (h35 : (0.35 : ℝ) ≤ wilson_upper_bound k total (1.64 : ℝ)) :
    (total : ℝ) ≤ 19 := by
  rw [wilson_closed k total _ (by omega)] at h35
  have hT : (0 : ℝ) < (total : ℝ) := by exact_mod_cast (by omega : (0:ℤ) < total)
  have hk3' : (k : ℝ) ≤ 3 := by exact_mod_cast hk3
  have hk1' : (1 : ℝ) ≤ (k : ℝ) := by exact_mod_cast hk1
  have hfrac : 0 ≤ 4 * (k : ℝ) ^ 2 / (total : ℝ) := by positivity
  have hAub : (1.64 : ℝ) * 1.64 + 4 * (k : ℝ) - 4 * (k : ℝ) ^ 2 / (total : ℝ) ≤
      (3.84 : ℝ) ^ 2 := by nlinarith
  have hs_le : Real.sqrt ((1.64 : ℝ) * 1.64 + 4 * (k : ℝ) - 4 * (k : ℝ) ^ 2 / (total : ℝ)) ≤
      3.84 := by
    calc Real.sqrt ((1.64 : ℝ) * 1.64 + 4 * (k : ℝ) - 4 * (k : ℝ) ^ 2 / (total : ℝ)) ≤
        Real.sqrt ((3.84 : ℝ) ^ 2) := Real.sqrt_le_sqrt hAub
      _ = 3.84 := Real.sqrt_sq (by norm_num)
  have hD : (0 : ℝ) < 2 * ((total : ℝ) + (1.64 : ℝ) * 1.64) := by nlinarith
  rw [le_div_iff hD] at h35
  nlinarith [h35, hs_le, hk3']

lemma wilson_nudge_bound (k total : ℤ) (hk1 : 1 ≤ k) (hk3 : k ≤ 3)
    (htot : 10 ≤ total)
    (h35 : (0.35 : ℝ) ≤ wilson_upper_bound k total (1.64 : ℝ)) :
    wilson_upper_bound k total (1.64 : ℝ) + 1e-6 ≤
      wilson_upper_bound (k + 1) total (1.64 : ℝ) := by
  have hT19 := wilson_total_le_of_ge k total hk1 hk3 htot h35
  have hgap := wilson_gap k total (1.64 : ℝ) (by omega) (by omega) (by norm_num)
    (by omega)
  have hT : (0 : ℝ) < (total : ℝ) := by exact_mod_cast (by omega : (0:ℤ) < total)
  have hD : (0 : ℝ) < 2 * ((total : ℝ) + (1.64 : ℝ) * 1.64) := by nlinarith
  have h1 : (1e-6 : ℝ) ≤ 2 / (2 * ((total : ℝ) + (1.64 : ℝ) * 1.64)) := by
    rw [le_div_iff hD]
    nlinarith [hT19]
  linarith [hgap, h1]

/-- C2 (amended): with default parameters, for every achievable font-count
map (at least two distinct fonts, counts at least 1, total the sum of the
counts, and at least 10), the threshold always flags `k_star`
(`ub(k_star) < t_doc`), and it spares `k_star + 1`
(`t_doc ≤ ub(k_star+1)`) provided `ub(k_star+1)` is at least the hard floor
`0.001` that the code puts on the threshold. -/
theorem claim2_threshold_separates (total : ℤ) (counts : List ℕ)
    (hlen : 2 ≤ counts.length) (hpos : ∀ c ∈ counts, 1 ≤ c)
    (hsum : total = (counts.sum : ℤ)) (htot : 10 ≤ total) :
    wilson_upper_bound (kStarOf 3 counts) total (1.64 : ℝ) <
      dynamic_doc_threshold 3 (1.64 : ℝ) (0.8 : ℝ) total counts ∧
    ((0.001 : ℝ) ≤ wilson_upper_bound ((kStarOf 3 counts : ℤ) + 1) total (1.64 : ℝ) →
      dynamic_doc_threshold 3 (1.64 : ℝ) (0.8 : ℝ) total counts ≤
        wilson_upper_bound ((kStarOf 3 counts : ℤ) + 1) total (1.64 : ℝ)) := by
  have hk1 : 1 ≤ kStarOf 3 counts := le_min (by norm_num) (le_max_left _ _)
  have hk3 : kStarOf 3 counts ≤ 3 := min_le_left _ _
  have hk1' : (1 : ℤ) ≤ (kStarOf 3 counts : ℤ) := by exact_mod_cast hk1
  have hk3' : ((kStarOf 3 counts : ℤ)) ≤ 3 := by exact_mod_cast hk3
  have hcne : counts ≠ [] := by
    intro h
    rw [h] at hlen
    simp at hlen
  have hc1 : ¬ (total ≤ 0 ∨ counts = []) := by
    push_neg
    exact ⟨by omega, hcne⟩
  have hc2 : ¬ (counts.length = 1) := by omega
  have hmin : min ((kStarOf 3 counts : ℤ) + 1) total = (kStarOf 3 counts : ℤ) + 1 :=
    min_eq_left (by omega)
  have hu12 : wilson_upper_bound (kStarOf 3 counts) total (1.64 : ℝ) <
      wilson_upper_bound ((kStarOf 3 counts : ℤ) + 1) total (1.64 : ℝ) :=
    wilson_lt _ _ total (1.64 : ℝ) (by omega) (by omega) (by omega) (by norm_num)
      (by omega)
  unfold dynamic_doc_threshold
  rw [if_neg hc1, if_neg hc2]
  simp only [hmin, hu12.not_le, if_false]
  set u1 := wilson_upper_bound (kStarOf 3 counts) total (1.64 : ℝ) with hu1def
  set u2 := wilson_upper_bound ((kStarOf 3 counts : ℤ) + 1) total (1.64 : ℝ) with hu2def
  have htRaw_gt : u1 < u1 + 0.8 * (u2 - u1) := by nlinarith [hu12]
  have htRaw_lt : u1 + 0.8 * (u2 - u1) < u2 := by nlinarith [hu12]
  constructor
  · by_cases hnud : min (u1 + 0.8 * (u2 - u1)) 0.35 ≤ u1
    · rw [if_pos hnud]
      have : u1 < u1 + 1e-6 := by nlinarith [show (0:ℝ) < 1e-6 by norm_num]
      exact lt_of_lt_of_le this (le_max_right _ _)
    · rw [if_neg hnud]
      exact lt_of_lt_of_le (not_le.mp hnud) (le_max_right _ _)
  · intro h001
    by_cases hnud : min (u1 + 0.8 * (u2 - u1)) 0.35 ≤ u1
    · rw [if_pos hnud]
      have h35 : (0.35 : ℝ) ≤ u1 := by
        rcases min_le_iff.mp hnud with h | h
        · exact absurd h (not_le.mpr htRaw_gt)
        · exact h
      have := wilson_nudge_bound (kStarOf 3 counts) total hk1' hk3' htot h35
      exact max_le h001 (by linarith [this])
    · rw [if_neg hnud]
      exact max_le h001 (le_trans (min_le_left _ _) htRaw_lt.le)

/-- Witness for C2 (amended) at the two-font document `{A:1, B:9}`,
`total = 10`. -/
theorem claim2_threshold_separates_witness :
    (2 ≤ ([1, 9] : List ℕ).length ∧ (∀ c ∈ ([1, 9] : List ℕ), 1 ≤ c) ∧
      (10 : ℤ) = (([1, 9] : List ℕ).sum : ℤ) ∧ (10 : ℤ) ≤ 10) ∧
    (wilson_upper_bound (kStarOf 3 [1, 9]) 10 (1.64 : ℝ) <
        dynamic_doc_threshold 3 (1.64 : ℝ) (0.8 : ℝ) 10 [1, 9] ∧
      ((0.001 : ℝ) ≤ wilson_upper_bound ((kStarOf 3 [1, 9] : ℤ) + 1) 10 (1.64 : ℝ) →
        dynamic_doc_threshold 3 (1.64 : ℝ) (0.8 : ℝ) 10 [1, 9] ≤
          wilson_upper_bound ((kStarOf 3 [1, 9] : ℤ) + 1) 10 (1.64 : ℝ))) :=
  ⟨⟨by decide, by decide, by decide, by decide⟩,
   claim2_threshold_separates 10 [1, 9] (by decide) (by decide) (by decide)
     (by decide)⟩

lemma wilson_2_10000_lt :
    wilson_upper_bound 2 10000 (1.64 : ℝ) < 0.001 := by
  rw [wilson_closed 2 10000 _ (by norm_num)]
  have harg : ((1.64 : ℝ) * 1.64 + 4 * ((2 : ℤ) : ℝ) - 4 * ((2 : ℤ) : ℝ) ^ 2 / ((10000 : ℤ) : ℝ)) ≤
      (3.3 : ℝ) ^ 2 := by push_cast; norm_num
  have hs : Real.sqrt ((1.64 : ℝ) * 1.64 + 4 * ((2 : ℤ) : ℝ) -
      4 * ((2 : ℤ) : ℝ) ^ 2 / ((10000 : ℤ) : ℝ)) ≤ 3.3 := by
    calc Real.sqrt _ ≤ Real.sqrt ((3.3 : ℝ) ^ 2) := Real.sqrt_le_sqrt harg
      _ = 3.3 := Real.sqrt_sq (by norm_num)
  rw [div_lt_iff (by push_cast; norm_num)]
  push_cast at hs ⊢
  nlinarith [hs]

/-- C2 counterexample: in the document with normalized font counts
`{A:1, B:2, C:9997}` (total 10000), `k_star = 1` but the computed threshold
is exactly the hard floor `0.001`, which lies strictly ABOVE the Wilson
upper bound of the font occurring `k_star + 1 = 2` times — so that font IS
flagged, contradicting the claimed strict separation. -/
theorem claim2_counterexample :
    kStarOf 3 [1, 2, 9997] = 1 ∧
    dynamic_doc_threshold 3 (1.64 : ℝ) (0.8 : ℝ) 10000 [1, 2, 9997] = 0.001 ∧
    wilson_upper_bound 2 10000 (1.64 : ℝ) <
      dynamic_doc_threshold 3 (1.64 : ℝ) (0.8 : ℝ) 10000 [1, 2, 9997] := by
  have hks : kStarOf 3 [1, 2, 9997] = 1 := by decide
  have hu12 : wilson_upper_bound 1 10000 (1.64 : ℝ) <
      wilson_upper_bound 2 10000 (1.64 : ℝ) :=
    wilson_lt 1 2 10000 (1.64 : ℝ) (by norm_num) (by norm_num) (by norm_num)
      (by norm_num) (by norm_num)
  have hu2lt := wilson_2_10000_lt
  have hmain : dynamic_doc_threshold 3 (1.64 : ℝ) (0.8 : ℝ) 10000 [1, 2, 9997] = 0.001 := by
    unfold dynamic_doc_threshold
    rw [if_neg (not_or.mpr ⟨by norm_num, List.cons_ne_nil _ _⟩), if_neg (by norm_num)]
    simp only [hks, Nat.cast_one]
    have hmin2 : min ((1 : ℤ) + 1) (10000 : ℤ) = 2 := by norm_num
    rw [hmin2]
    simp only [hu12.not_le, if_false]
    set u1 := wilson_upper_bound 1 10000 (1.64 : ℝ) with hu1def
    set u2 := wilson_upper_bound 2 10000 (1.64 : ℝ) with hu2def
    have htRawle : u1 + 0.8 * (u2 - u1) ≤ u2 := by nlinarith [hu12]
    have htRawlt : u1 + 0.8 * (u2 - u1) < 0.001 := lt_of_le_of_lt htRawle hu2lt
    rw [min_eq_left (by linarith : u1 + 0.8 * (u2 - u1) ≤ (0.35 : ℝ))]
    rw [if_neg (by nlinarith [hu12] : ¬ (u1 + 0.8 * (u2 - u1) ≤ u1))]
    exact max_eq_left (by linarith)
  exact ⟨hks, hmain, by rw [hmain]; exact hu2lt⟩

lemma wordsWithPages_font_none {ocr : List (List Word)}
    (h : ∀ page ∈ ocr, ∀ w ∈ page, w.font = none) :
    (wordsWithPages ocr).any (fun w => w.word.font.isSome) = false := by
  rw [List.any_eq_false]
  intro pw hpw
  unfold wordsWithPages at hpw
  rw [List.mem_join] at hpw
  obtain ⟨sub, hsub, hpwm⟩ := hpw
  rw [List.mem_map] at hsub
  obtain ⟨⟨i, pg⟩, hpg, rfl⟩ := hsub
  rw [List.mem_map] at hpwm
  obtain ⟨w, hw, rfl⟩ := hpwm
  have hpgmem : pg ∈ ocr := by
    have h1 := List.mem_map_of_mem Prod.snd hpg
    rwa [List.enum_map_snd] at h1
  have hwf := h pg hpgmem w hw
  simp [hwf]

/-- C9 (amended): when no word on any page carries font metadata and no
rendered image is supplied, `detect` fails fast by raising — but the
exception is the generic `ValueError`, not a distinct
`MissingDetectionInputError` (no such type exists in the repository). -/
theorem claim9_detect_raises {Img : Type} (d : Detector Img)
    (ocr : List (List Word)) (h : ∀ page ∈ ocr, ∀ w ∈ page, w.font = none) :
    detect d ocr none = Except.error
      (PyExn.valueError "No font info and no image provided for anomaly detection.") := by
  have hfont := wordsWithPages_font_none h
  simp only [detect]
  rw [hfont]
  simp

/-- Witness detector configuration over a trivial image type (default
constructor arguments; the abstract predicates match nothing). -/
noncomputable def sampleDetector : Detector Unit :=
  ⟨3, 1.64, 0.8, fun _ => false, fun _ => false, true, 0.05, 0.95, fun _ _ => []⟩

/-- Witness for C9 on a one-word document without font metadata. -/
theorem claim9_detect_raises_witness :
    (∀ page ∈ [[Word.mk "w" [0, 0, 1, 1] none]], ∀ w ∈ page, w.font = none) ∧
    detect sampleDetector [[Word.mk "w" [0, 0, 1, 1] none]] none = Except.error
      (PyExn.valueError "No font info and no image provided for anomaly detection.") :=
  ⟨by decide, claim9_detect_raises sampleDetector _ (by decide)⟩

/-- C9 counterexample: at a concrete font-less OCR output with no image the
raised exception is the builtin `ValueError`, which is a different exception
from the `MissingDetectionInputError` the claim names. -/
theorem claim9_counterexample :
    detect sampleDetector [[Word.mk "w" [0, 0, 1, 1] none]] none = Except.error
      (PyExn.valueError "No font info and no image provided for anomaly detection.") ∧
    PyExn.valueError "No font info and no image provided for anomaly detection." ≠
      PyExn.missingDetectionInputError := by
  constructor
  · have hfont : (wordsWithPages [[Word.mk "w" [0, 0, 1, 1] none]]).any
        (fun w => w.word.font.isSome) = false := by decide
    simp only [detect]
    rw [hfont]
    simp
  · decide

end Verifex
